import Mathlib

/-!
Shallow embedding of `get_delegator_income.py` and `get_delegator_balance.py`
(repository rickstaa/get-delegator-info).

Modelling conventions:
* Python floats holding asset amounts and prices are modelled as exact
  rationals (`ℚ`).  The raw contract reads return smallest-unit integers
  (`ℤ`), which the code scales by `10^18`, exactly as in the source.
* Remote reads are modelled as oracle data: a call that can raise is an
  `Except String` value, a call whose Python wrapper returns `None` on
  failure is an `Option` value.  Each retry attempt may observe a
  different oracle state, so a retried call consumes `Nat → ⋯`.
* The `timestamp` of a ledger row is kept as the Unix integer.  The code
  stores `datetime.fromtimestamp(ts, tz=utc).strftime("%Y-%m-%d %H:%M:%S")`;
  on the domain of Unix times this formatting is a strictly monotone
  injection into strings under lexicographic order, which is the order
  pandas uses when sorting the column, so sorting by the integer is
  order-isomorphic to sorting by the formatted string.
-/

/-- The tuple returned by `BONDING_MANAGER_CONTRACT.functions.getDelegator(...)
.call(block_identifier=...)`: raw smallest-unit integers plus the delegate
address (`get_delegator_income.py`, lines 112-121). -/
structure GetDelegatorTuple where
  bondedAmountWei : ℤ
  feesWei : ℤ
  delegateAddress : String
  delegatedAmountWei : ℤ
  startRound : ℤ
  lastClaimRound : ℤ
  nextUnbondingLockId : ℤ

/-- The dictionary built by `fetch_delegator_info` (lines 127-137): whole-unit
amounts obtained by dividing the raw integers by `10^18`, plus the pending
stake and pending fees fetched through the retry helpers. -/
structure DelegatorInfo where
  bonded_amount : ℚ
  fees : ℚ
  delegate_address : String
  delegated_amount : ℚ
  start_round : ℤ
  last_claim_round : ℤ
  next_unbonding_lock_id : ℤ
  pending_stake : ℚ
  pending_fees : ℚ
deriving DecidableEq

/-- One attempt's view of the remote calls made inside the `try` block of
`fetch_delegator_info` (lines 108-126).  `Except.error` models the call
raising an exception; `Web3.to_checksum_address` can also raise on a bad
address.  `fetch_pending_stake` / `fetch_pending_fees` come from
`get_orch_income.py` and already return whole-unit amounts; they are
retry-wrapped there and surface an exception after exhaustion. -/
structure FetchOracle where
  toChecksumAddress : Except String String
  getDelegator : Except String GetDelegatorTuple
  pendingStake : Except String ℚ
  pendingFees : Except String ℚ

/-- The body of `fetch_delegator_info` (lines 108-140): every exception inside
the `try` block is caught by `except Exception`, which prints and returns
`None`.  Translated: any `Except.error` from an inner call yields `none`. -/
def fetch_delegator_info_body (o : FetchOracle) : Option DelegatorInfo :=
  match o.toChecksumAddress with
  | .error _ => none
  | .ok _ =>
    match o.getDelegator with
    | .error _ => none
    | .ok d =>
      match o.pendingStake with
      | .error _ => none
      | .ok ps =>
        match o.pendingFees with
        | .error _ => none
        | .ok pf =>
          some
            { bonded_amount := (d.bondedAmountWei : ℚ) / 10 ^ 18
              fees := (d.feesWei : ℚ) / 10 ^ 18
              delegate_address := d.delegateAddress
              delegated_amount := (d.delegatedAmountWei : ℚ) / 10 ^ 18
              start_round := d.startRound
              last_claim_round := d.lastClaimRound
              next_unbonding_lock_id := d.nextUnbondingLockId
              pending_stake := ps
              pending_fees := pf }

/-- The `tenacity` retry combinator used by the decorator
`@retry(stop=stop_after_attempt(5), wait=wait_exponential(...),
retry=retry_if_exception_type(Exception))`: run attempt `i`; if it raises and
retries remain, run attempt `i + 1`, and after the final attempt surface the
last exception.  The backoff sleeps only delay execution and are not
modelled.  `remaining` counts the retries left after the current attempt. -/
def retryFrom {A : Type} (f : Nat → Except String A) : Nat → Nat → Except String A
  | i, 0 => f i
  | i, remaining + 1 =>
    match f i with
    | .ok a => .ok a
    | .error _ => retryFrom f (i + 1) remaining

/-- `fetch_delegator_info` as decorated (lines 93-140): 5 attempts, each
attempt executing the body against that attempt's oracle view.  The body never
raises (it catches everything), so each attempt is `Except.ok`. -/
def fetch_delegator_info (oracles : Nat → FetchOracle) :
    Except String (Option DelegatorInfo) :=
  retryFrom (fun i => Except.ok (fetch_delegator_info_body (oracles i))) 0 4

/-- The row dictionaries built in `process_delegator_balances_over_rounds`
(lines 223-261); field names follow the dictionary keys (`value` and `price`
stand for the dynamic `value ({currency})` / `price ({currency})` keys). -/
structure LedgerRow where
  timestamp : Nat
  round : Nat
  transaction_hash : String
  transaction_url : String
  direction : String
  transaction_type : String
  currency : String
  amount : ℚ
  value : ℚ
  price : ℚ
  pending_rewards : ℚ
  pending_fees : ℚ
  accumulated_rewards : ℚ
  accumulated_fees : ℚ
  source_function : String
deriving DecidableEq

/-- Per-round oracle data for the loop body of
`process_delegator_balances_over_rounds` (lines 199-209): the round record
from the GraphQL query plus the results of the two remote lookups for that
round.  `blockHash` is the value of `fetch_block_hash_for_round(round_id)`
(`none` models Python `None`); `info` is the result of
`fetch_delegator_info(delegator, block_hash)`, which by
`fetch_delegator_info_ok` below is always an `Option`, never an exception. -/
structure RoundData where
  id : Nat
  startTimestamp : Nat
  blockHash : Option String
  info : Option DelegatorInfo

/-- Python truthiness test `if not block_hash` (line 205): `None` and the
empty string are falsy. -/
def blockHashFalsy : Option String → Bool
  | none => true
  | some s => s.isEmpty

/-- The rows appended for one successfully processed round (lines 216-261):
accumulated amounts are measured against the window-start snapshot, income
against the previous successfully processed round; a reward (fee) row is
appended only when the respective income is strictly positive, valued at the
LPT (ETH) price looked up at the round's own `startTimestamp`.
`price sym cur ts` models `fetch_crypto_price(sym, cur, ts)`. -/
def roundRows (price : String → String → Nat → ℚ) (currency : String)
    (starting_pending_stake starting_pending_fees : ℚ)
    (previous_pending_stake previous_pending_fees : ℚ)
    (rd : RoundData) (info : DelegatorInfo) : List LedgerRow :=
  let current_pending_stake := info.pending_stake
  let current_pending_fees := info.pending_fees
  let accumulated_rewards := max 0 (current_pending_stake - starting_pending_stake)
  let accumulated_fees := max 0 (current_pending_fees - starting_pending_fees)
  let reward_income := max 0 (current_pending_stake - previous_pending_stake)
  let fee_income := max 0 (current_pending_fees - previous_pending_fees)
  (if 0 < reward_income then
    [{ timestamp := rd.startTimestamp
       round := rd.id
       transaction_hash := ""
       transaction_url := ""
       direction := "incoming"
       transaction_type := "pending rewards"
       currency := "LPT"
       amount := reward_income
       value := reward_income * price "LPT" currency rd.startTimestamp
       price := price "LPT" currency rd.startTimestamp
       pending_rewards := current_pending_stake
       pending_fees := current_pending_fees
       accumulated_rewards := accumulated_rewards
       accumulated_fees := accumulated_fees
       source_function := "pendingStake" }]
   else []) ++
  (if 0 < fee_income then
    [{ timestamp := rd.startTimestamp
       round := rd.id
       transaction_hash := ""
       transaction_url := ""
       direction := "incoming"
       transaction_type := "pending fees"
       currency := "ETH"
       amount := fee_income
       value := fee_income * price "ETH" currency rd.startTimestamp
       price := price "ETH" currency rd.startTimestamp
       pending_rewards := current_pending_stake
       pending_fees := current_pending_fees
       accumulated_rewards := accumulated_rewards
       accumulated_fees := accumulated_fees
       source_function := "pendingFees" }]
   else [])

/-- The loop of `process_delegator_balances_over_rounds` (lines 196-265): the
two `previous_*` accumulators advance only on successfully processed rounds;
a round whose block-hash resolution is falsy or whose snapshot fetch returns
`None` is skipped by `continue`. -/
def processRounds (price : String → String → Nat → ℚ) (currency : String)
    (starting_pending_stake starting_pending_fees : ℚ) :
    List RoundData → ℚ → ℚ → List LedgerRow
  | [], _, _ => []
  | rd :: rest, previous_pending_stake, previous_pending_fees =>
    if blockHashFalsy rd.blockHash then
      processRounds price currency starting_pending_stake starting_pending_fees
        rest previous_pending_stake previous_pending_fees
    else
      match rd.info with
      | none =>
          processRounds price currency starting_pending_stake starting_pending_fees
            rest previous_pending_stake previous_pending_fees
      | some info =>
          roundRows price currency starting_pending_stake starting_pending_fees
            previous_pending_stake previous_pending_fees rd info ++
          processRounds price currency starting_pending_stake starting_pending_fees
            rest info.pending_stake info.pending_fees

/-- `process_delegator_balances_over_rounds` (lines 177-265): the accumulators
are seeded from the window's starting pending stake and fees (lines 197-198).
The `delegator` argument is only passed through to the per-round remote
lookups, which are already part of each `RoundData`. -/
def process_delegator_balances_over_rounds (price : String → String → Nat → ℚ)
    (rounds : List RoundData) (currency : String)
    (starting_pending_stake starting_pending_fees : ℚ) : List LedgerRow :=
  processRounds price currency starting_pending_stake starting_pending_fees
    rounds starting_pending_stake starting_pending_fees

/-- A row of the merged ledger after the cumulative-balance pass: the original
row plus the two stamped running totals. -/
structure CumRow where
  row : LedgerRow
  cumulative_balance_eth : ℚ
  cumulative_balance_lpt : ℚ
deriving DecidableEq

/-- Modelled from the spec: `add_cumulative_balances` is imported from
`get_orch_income.py`, a file of this repository that is not among the provided
sources.  Spec §4.6: a single forward pass over the sorted ledger maintaining
two running totals (ETH, LPT) seeded from the starting balances; for each row,
`direction = incoming` adds `amount` to the matching currency's running total,
`outgoing` subtracts it, and both cumulative fields are stamped on every row
regardless of that row's own currency. -/
def add_cumulative_balances : List LedgerRow → ℚ → ℚ → List CumRow
  | [], _, _ => []
  | r :: rest, eth, lpt =>
    let signed : ℚ := if r.direction = "incoming" then r.amount else -r.amount
    let eth' := if r.currency = "ETH" then eth + signed else eth
    let lpt' := if r.currency = "LPT" then lpt + signed else lpt
    ⟨r, eth', lpt'⟩ :: add_cumulative_balances rest eth' lpt'

/-!
The merge step (lines 579-581) is
`pd.concat(non_empty_dataframes, ignore_index=True).sort_values(by="timestamp")`.
`sort_values` is called without a `kind` argument, so pandas uses its default
`kind='quicksort'`.  For a single `object`-dtype key column pandas computes
`values.argsort(kind='quicksort')` (pandas `nargsort`), which numpy runs with
its generic argsort `npy_aquicksort` (numpy `npysort/quicksort.c.src`): an
introsort that partitions while the segment holds more than
`SMALL_QUICKSORT = 15` further elements, falls back to `npy_aheapsort` when a
depth limit of `2 * msb(n)` is exhausted, and finishes segments of at most 16
elements with an insertion sort.  The functions below translate that
algorithm for an index list `t` sorted by a key function.  Loops are given
explicit fuel bounds that are never reached on the inputs analysed here.
-/

/-- `INTP_SWAP` on the index list. -/
def swapIdx (t : List Nat) (i j : Nat) : List Nat :=
  let a := t.getD i 0
  let b := t.getD j 0
  (t.set i b).set j a

/-- Insert index `vi` into an already sorted index list: the insertion-sort
inner loop of `npy_aquicksort` shifts elements right while `key vi` is
strictly below theirs, which places `vi` just before the first element with a
strictly greater key. -/
def insIdx (key : Nat → Nat) (vi : Nat) : List Nat → List Nat
  | [] => [vi]
  | j :: rest => if key vi < key j then vi :: j :: rest else j :: insIdx key vi rest

/-- The insertion sort `npy_aquicksort` runs on a small segment: indices are
taken left to right and inserted into the sorted prefix. -/
def insSortL (key : Nat → Nat) (l : List Nat) : List Nat :=
  l.foldl (fun acc vi => insIdx key vi acc) []

/-- Insertion sort of the inclusive segment `[pl, pr]` of `t`, leaving the
rest of the list untouched. -/
def insSortSegL (key : Nat → Nat) (t : List Nat) (pl pr : Nat) : List Nat :=
  t.take pl ++ insSortL key ((t.drop pl).take (pr + 1 - pl)) ++ t.drop (pr + 1)

/-- The sift loop of `npy_aheapsort` (1-indexed heap `a[1..n]`, stored here
0-indexed): walk down from node `i` with candidate child `j`, moving the
larger child up until `tmp`'s key is not below it.  Fuel: `j` at least
doubles each round. -/
def hsSift (key : Nat → Nat) : Nat → List Nat → Nat → Nat → Nat → Nat → List Nat
  | 0, l, tmp, i, _, _ => l.set (i - 1) tmp
  | fuel + 1, l, tmp, i, j, n =>
    if j ≤ n then
      let j' := if j < n ∧ key (l.getD (j - 1) 0) < key (l.getD j 0) then j + 1 else j
      if key tmp < key (l.getD (j' - 1) 0) then
        hsSift key fuel (l.set (i - 1) (l.getD (j' - 1) 0)) tmp j' (j' + j') n
      else l.set (i - 1) tmp
    else l.set (i - 1) tmp

/-- Heap construction of `npy_aheapsort`: sift nodes `n/2, …, 1`. -/
def hsBuild (key : Nat → Nat) (n : Nat) : Nat → List Nat → List Nat
  | 0, l => l
  | li + 1, l =>
      hsBuild key n li (hsSift key (n + 1) l (l.getD li 0) (li + 1) ((li + 1) * 2) n)

/-- Pop phase of `npy_aheapsort`: swap the root with the last heap element,
shrink the heap, and sift the new root down. -/
def hsPop (key : Nat → Nat) : Nat → List Nat → List Nat
  | 0, l => l
  | 1, l => l
  | m + 2, l =>
      let tmp := l.getD (m + 1) 0
      let l1 := l.set (m + 1) (l.getD 0 0)
      hsPop key (m + 1) (hsSift key (m + 3) l1 tmp 1 2 (m + 1))

/-- `npy_aheapsort` on a whole index list. -/
def aheapsortL (key : Nat → Nat) (l : List Nat) : List Nat :=
  hsPop key l.length (hsBuild key l.length (l.length / 2) l)

/-- `npy_aheapsort` applied to the inclusive segment `[pl, pr]` of `t`, as
`npy_aquicksort` does on depth-limit exhaustion. -/
def heapsortSeg (key : Nat → Nat) (t : List Nat) (pl pr : Nat) : List Nat :=
  t.take pl ++ aheapsortL key ((t.drop pl).take (pr + 1 - pl)) ++ t.drop (pr + 1)

/-- `do ++pi; while (key t[pi] < pivot)` of the partition loop. -/
def scanUp (key : Nat → Nat) (vp : Nat) (t : List Nat) : Nat → Nat → Nat
  | 0, k => k
  | fuel + 1, k => if key (t.getD k 0) < vp then scanUp key vp t fuel (k + 1) else k

/-- `do --pj; while (pivot < key t[pj])` of the partition loop. -/
def scanDown (key : Nat → Nat) (vp : Nat) (t : List Nat) : Nat → Nat → Nat
  | 0, k => k
  | fuel + 1, k => if vp < key (t.getD k 0) then scanDown key vp t fuel (k - 1) else k

/-- The exchange loop of the `npy_aquicksort` partition: advance `pi` and
retreat `pj` past in-place elements, stop when they meet, otherwise swap and
continue.  Returns the final `pi` together with the permuted list. -/
def partLoop (key : Nat → Nat) (vp : Nat) : Nat → List Nat → Nat → Nat → List Nat × Nat
  | 0, t, pi, _ => (t, pi)
  | fuel + 1, t, pi, pj =>
    let pi' := scanUp key vp t t.length (pi + 1)
    let pj' := scanDown key vp t t.length (pj - 1)
    if pj' ≤ pi' then (t, pi')
    else partLoop key vp fuel (swapIdx t pi' pj') pi' pj'

/-- One `npy_aquicksort` partition of the segment `[pl, pr]`: median-of-3
pivot selection (with its index swaps), pivot parked at `pr - 1`, exchange
loop, and the final swap placing the pivot at `pi`. -/
def partitionSeg (key : Nat → Nat) (t : List Nat) (pl pr : Nat) : List Nat × Nat :=
  let pm := pl + (pr - pl) / 2
  let t1 := if key (t.getD pm 0) < key (t.getD pl 0) then swapIdx t pm pl else t
  let t2 := if key (t1.getD pr 0) < key (t1.getD pm 0) then swapIdx t1 pr pm else t1
  let t3 := if key (t2.getD pm 0) < key (t2.getD pl 0) then swapIdx t2 pm pl else t2
  let vp := key (t3.getD pm 0)
  let t4 := swapIdx t3 pm (pr - 1)
  let p := partLoop key vp (pr - pl + 2) t4 pl (pr - 1)
  (swapIdx p.1 p.2 (pr - 1), p.2)

/-- The explicit segment stack of `npy_aquicksort`. -/
structure QSState where
  t : List Nat
  pl : Nat
  pr : Nat
  stk : List (Nat × Nat)
  depth : Int

/-- The outer loop of `npy_aquicksort`: while the current segment holds more
than `SMALL_QUICKSORT = 15` further elements, check the shared depth budget
(heap-sorting the segment once it is exhausted; `depth_limit--` also fires on
that branch), otherwise partition, push the larger side, and continue with
the smaller; segments of at most 16 elements are insertion sorted and the
next segment is popped. -/
def qsRun (key : Nat → Nat) : Nat → QSState → List Nat
  | 0, st => st.t
  | fuel + 1, st =>
    if 15 < st.pr - st.pl then
      if st.depth < 0 then
        let t' := heapsortSeg key st.t st.pl st.pr
        match st.stk with
        | [] => t'
        | (pl', pr') :: rest => qsRun key fuel ⟨t', pl', pr', rest, st.depth - 1⟩
      else
        let p := partitionSeg key st.t st.pl st.pr
        if p.2 - st.pl < st.pr - p.2 then
          qsRun key fuel ⟨p.1, st.pl, p.2 - 1, (p.2 + 1, st.pr) :: st.stk, st.depth - 1⟩
        else
          qsRun key fuel ⟨p.1, p.2 + 1, st.pr, (st.pl, p.2 - 1) :: st.stk, st.depth - 1⟩
    else
      let t' := insSortSegL key st.t st.pl st.pr
      match st.stk with
      | [] => t'
      | (pl', pr') :: rest => qsRun key fuel ⟨t', pl', pr', rest, st.depth⟩

/-- `npy_get_msb`: position of the most significant bit. -/
def msbFuel : Nat → Nat → Nat
  | 0, _ => 0
  | fuel + 1, n => if 2 ≤ n then msbFuel fuel (n / 2) + 1 else 0

/-- `npy_get_msb` with enough fuel for any input. -/
def npyGetMsb (n : Nat) : Nat := msbFuel n n

/-- numpy's `argsort(kind='quicksort')` on a key list: for at most 16 keys
the outer `while` body never runs and the whole range is insertion sorted
once; above that the introsort stack machine runs with depth budget
`2 * msb(n)`. -/
def npyAargsort (keys : List Nat) : List Nat :=
  let n := keys.length
  let key := fun i => keys.getD i 0
  if n ≤ 16 then insSortL key (List.range n)
  else qsRun key ((n + 1) * (n + 1)) ⟨List.range n, 0, n - 1, [], 2 * npyGetMsb n⟩

/-- The timestamp key column of the concatenated dataframes
(`pd.concat(non_empty_dataframes, ignore_index=True)`): row sets are
concatenated in the list order given at lines 565-572. -/
def mergeKeys (rowSets : List (List LedgerRow)) : List Nat :=
  rowSets.flatten.map (fun r => r.timestamp)

/-- The row permutation `sort_values(by="timestamp")` applies to the
concatenated dataframe: numpy's default-kind argsort of the key column. -/
def mergePerm (rowSets : List (List LedgerRow)) : List Nat :=
  npyAargsort (mergeKeys rowSets)

/-- Placeholder row for out-of-range index access; never reached when the
permutation is valid. -/
def defaultLedgerRow : LedgerRow :=
  { timestamp := 0, round := 0, transaction_hash := "", transaction_url := ""
    direction := "", transaction_type := "", currency := "", amount := 0
    value := 0, price := 0, pending_rewards := 0, pending_fees := 0
    accumulated_rewards := 0, accumulated_fees := 0, source_function := "" }

/-- `pd.concat(...).sort_values(by="timestamp")` (lines 579-581): the
concatenated rows reordered by the argsort permutation. -/
def mergeLedger (rowSets : List (List LedgerRow)) : List LedgerRow :=
  let all := rowSets.flatten
  (mergePerm rowSets).map (fun i => all.getD i defaultLedgerRow)

/-- Outcome of one run of the `__main__` block of `get_delegator_income.py`:
an uncaught exception aborting the process, the explicit no-income-data early
stop (`sys.exit(0)` at line 576), or a finished report whose exported ledger
is the merged, cumulative-balance-annotated table. -/
inductive RunOutcome where
  | fatal (msg : String)
  | noIncomeData
  | report (ledger : List CumRow)

/-- Oracle data consumed by one run of the `__main__` block (lines 415-588).
Calls wrapped with `tenacity` retries in `get_orch_income.py` surface an
exception after exhaustion, hence `Except`; the two window-boundary
delegator-info snapshots are `fetch_delegator_info` calls and therefore come
as per-attempt oracle views; `fetch_rounds_in_timeframe` swallows its own
errors and returns a plain list; the price oracle is modelled as total (its
failure modes are outside every claim considered here). -/
structure RunInputs where
  currency : String
  price : String → String → Nat → ℚ
  startBlockNumber : Except String Nat
  endBlockNumber : Except String Nat
  startingEthBalance : Except String ℚ
  startingLptBalance : Except String ℚ
  endEthBalance : Except String ℚ
  endLptBalance : Except String ℚ
  rounds : List RoundData
  startOracles : Nat → FetchOracle
  endOracles : Nat → FetchOracle
  bondRows : Except String (List LedgerRow)
  unbondRows : Except String (List LedgerRow)
  transferBondRows : Except String (List LedgerRow)
  walletRows : Except String (List LedgerRow)

/-- The `__main__` block in the `Except` monad: each `←` is a remote call
whose exception, being uncaught, aborts the run.  Lines 464-481: the two
boundary snapshots are taken with `fetch_delegator_info` (which never raises,
see `fetch_delegator_info_ok`), the start-side one only when the rounds list
is non-empty, and a `None` snapshot is replaced by `0` pending values.
Line 521: `process_delegator_balances_over_rounds` returns
`pd.DataFrame(rows)`, which for empty `rows` is a DataFrame with **no
columns**, so the column selection `balance_data["transaction type"]` raises
an uncaught `KeyError` and kills the run; every row of a non-empty
`balance_data` carries the `transaction type` key, and the selections at
lines 521-522 filter by its value.  Lines 524-576: the four event-row
fetches and the emptiness check.  Lines 579-588: merge and cumulative
pass. -/
def runMainE (d : RunInputs) : Except String RunOutcome := do
  let _start_block ← d.startBlockNumber
  let _end_block ← d.endBlockNumber
  let starting_eth_balance ← d.startingEthBalance
  let starting_lpt_balance ← d.startingLptBalance
  let _end_eth_balance ← d.endEthBalance
  let _end_lpt_balance ← d.endLptBalance
  let starting_delegator_info ←
    if d.rounds.isEmpty then pure none else fetch_delegator_info d.startOracles
  let starting_pending_stake := (starting_delegator_info.map
    (fun i => i.pending_stake)).getD 0
  let starting_pending_fees := (starting_delegator_info.map
    (fun i => i.pending_fees)).getD 0
  let ending_delegator_info ← fetch_delegator_info d.endOracles
  let _ending_pending_stake := (ending_delegator_info.map
    (fun i => i.pending_stake)).getD 0
  let _ending_pending_fees := (ending_delegator_info.map
    (fun i => i.pending_fees)).getD 0
  let balance_data := process_delegator_balances_over_rounds d.price d.rounds
    d.currency starting_pending_stake starting_pending_fees
  if balance_data.isEmpty then
    Except.error "KeyError: transaction type"
  else do
    let reward_data := balance_data.filter
      (fun r => r.transaction_type == "pending rewards")
    let fee_data := balance_data.filter
      (fun r => r.transaction_type == "pending fees")
    let bond_data ← d.bondRows
    let unbond_data ← d.unbondRows
    let transfer_bond_data ← d.transferBondRows
    let wallet_transfers ← d.walletRows
    let all_dataframes := [reward_data, fee_data, bond_data, unbond_data,
      transfer_bond_data, wallet_transfers]
    let non_empty_dataframes := all_dataframes.filter (fun l => !l.isEmpty)
    if non_empty_dataframes.isEmpty then
      return RunOutcome.noIncomeData
    else
      return RunOutcome.report (add_cumulative_balances
        (mergeLedger non_empty_dataframes) starting_eth_balance starting_lpt_balance)

/-- One run of the `__main__` block: an uncaught exception becomes the fatal
outcome. -/
def runMain (d : RunInputs) : RunOutcome :=
  match runMainE d with
  | .error e => RunOutcome.fatal e
  | .ok out => out

/-- Process exit status of each outcome: an uncaught exception makes Python
exit non-zero; the no-income-data stop is `sys.exit(0)`; a finished report
falls off the end of the script. -/
def exitCode : RunOutcome → Nat
  | .fatal _ => 1
  | .noIncomeData => 0
  | .report _ => 0

/-- Whether the run produced a report (a merged ledger and the Excel export).
-/
def isReport : RunOutcome → Bool
  | .report _ => true
  | _ => false

/-- Cumulative ETH balance stamped on the final row of the produced ledger,
when a report was produced. -/
def finalCumEth (o : RunOutcome) : Option ℚ :=
  match o with
  | .report rows => rows.getLast?.map (fun c => c.cumulative_balance_eth)
  | _ => none

/-- Cumulative LPT balance stamped on the final row of the produced ledger,
when a report was produced. -/
def finalCumLpt (o : RunOutcome) : Option ℚ :=
  match o with
  | .report rows => rows.getLast?.map (fun c => c.cumulative_balance_lpt)
  | _ => none

/-!  Model of `get_delegator_balance.py`. -/

/-- State of the remote ledger as observed by one run of
`get_delegator_balance.py`: the current head block and round, the
block-parameterised contract reads (raw smallest-unit integers), and the
price oracle. -/
structure ChainState where
  blockNumber : Nat
  currentRound : Nat
  ethBalanceWei : String → Nat → ℤ
  lptBalanceWei : String → Nat → ℤ
  pendingFeesWei : String → Nat → ℤ
  pendingStakeWei : String → Nat → ℤ
  price : String → String → Nat → ℚ

/-- `fetch_eth_balance` (`get_delegator_balance.py`, lines 19-32). -/
def fetch_eth_balance (c : ChainState) (wallet_address : String)
    (block_number : Nat) : ℚ :=
  (c.ethBalanceWei wallet_address block_number : ℚ) / 10 ^ 18

/-- `fetch_lpt_balance` (lines 35-50). -/
def fetch_lpt_balance (c : ChainState) (wallet_address : String)
    (block_number : Nat) : ℚ :=
  (c.lptBalanceWei wallet_address block_number : ℚ) / 10 ^ 18

/-- `fetch_pending_fees` (lines 53-68): note the contract call carries no
block identifier, so it reads the current chain state at the given round. -/
def fetch_pending_fees (c : ChainState) (wallet_address : String)
    (round_number : Nat) : ℚ :=
  (c.pendingFeesWei wallet_address round_number : ℚ) / 10 ^ 18

/-- `fetch_pending_rewards` (lines 71-86). -/
def fetch_pending_rewards (c : ChainState) (wallet_address : String)
    (round_number : Nat) : ℚ :=
  (c.pendingStakeWei wallet_address round_number : ℚ) / 10 ^ 18

/-- The dictionary returned by `fetch_delegator_balances` (lines 130-140). -/
structure DelegatorBalances where
  eth_balance : ℚ
  eth_value : ℚ
  lpt_unbonded_balance : ℚ
  lpt_unbonded_value : ℚ
  eth_unclaimed_fees : ℚ
  eth_unclaimed_fees_value : ℚ
  lpt_bonded_balance : ℚ
  lpt_bonded_value : ℚ
  total_wallet_value : ℚ

/-- `fetch_delegator_balances` (lines 89-140): balances are read at the
current head block (`ARB_CLIENT.eth.get_block_number()`) and the current
round (`ROUNDS_MANAGER_CONTRACT.functions.currentRound()`); only the two
price lookups receive the caller-supplied `timestamp`. -/
def fetch_delegator_balances (c : ChainState) (wallet_address : String)
    (timestamp : Nat) (currency : String) : DelegatorBalances :=
  let block_number := c.blockNumber
  let round_number := c.currentRound
  let eth_balance := fetch_eth_balance c wallet_address block_number
  let lpt_unbonded_balance := fetch_lpt_balance c wallet_address block_number
  let eth_unclaimed_fees := fetch_pending_fees c wallet_address round_number
  let lpt_bonded_balance := fetch_pending_rewards c wallet_address round_number
  let eth_price := c.price "ETH" currency timestamp
  let lpt_price := c.price "LPT" currency timestamp
  let eth_value := eth_balance * eth_price
  let lpt_unbonded_value := lpt_unbonded_balance * lpt_price
  let eth_unclaimed_fees_value := eth_unclaimed_fees * eth_price
  let lpt_bonded_value := lpt_bonded_balance * lpt_price
  { eth_balance := eth_balance
    eth_value := eth_value
    lpt_unbonded_balance := lpt_unbonded_balance
    lpt_unbonded_value := lpt_unbonded_value
    eth_unclaimed_fees := eth_unclaimed_fees
    eth_unclaimed_fees_value := eth_unclaimed_fees_value
    lpt_bonded_balance := lpt_bonded_balance
    lpt_bonded_value := lpt_bonded_value
    total_wallet_value := eth_value + lpt_unbonded_value +
      eth_unclaimed_fees_value + lpt_bonded_value }

/-- The pending-stake values of the successfully processed rounds (falsy block
hash and `None` snapshots are skipped by the loop), in round order. -/
def processedStakes (rounds : List RoundData) : List ℚ :=
  rounds.filterMap (fun rd =>
    if blockHashFalsy rd.blockHash then none
    else rd.info.map (fun i => i.pending_stake))

/-- The pending-fees values of the successfully processed rounds, in round
order. -/
def processedFees (rounds : List RoundData) : List ℚ :=
  rounds.filterMap (fun rd =>
    if blockHashFalsy rd.blockHash then none
    else rd.info.map (fun i => i.pending_fees))

theorem processRounds_skip (price : String → String → Nat → ℚ)
    (currency : String) (ss sf : ℚ) (rd : RoundData) (rest : List RoundData)
    (pS pF : ℚ) (h : blockHashFalsy rd.blockHash = true ∨ rd.info = none) :
    processRounds price currency ss sf (rd :: rest) pS pF =
      processRounds price currency ss sf rest pS pF := by
  rcases h with h | h
  · simp only [processRounds, h, if_true]
  · simp only [processRounds, h]
    split <;> rfl

theorem processRounds_cons_success (price : String → String → Nat → ℚ)
    (currency : String) (ss sf : ℚ) (rd : RoundData) (rest : List RoundData)
    (pS pF : ℚ) (info : DelegatorInfo)
    (hb : blockHashFalsy rd.blockHash = false) (hi : rd.info = some info) :
    processRounds price currency ss sf (rd :: rest) pS pF =
      roundRows price currency ss sf pS pF rd info ++
        processRounds price currency ss sf rest info.pending_stake
          info.pending_fees := by
  simp only [processRounds, hb, hi, Bool.false_eq_true, if_false]

theorem roundRows_fields (price : String → String → Nat → ℚ)
    (currency : String) (ss sf pS pF : ℚ) (rd : RoundData)
    (info : DelegatorInfo) (r : LedgerRow)
    (hr : r ∈ roundRows price currency ss sf pS pF rd info) :
    r.accumulated_rewards = max 0 (info.pending_stake - ss) ∧
    r.accumulated_fees = max 0 (info.pending_fees - sf) ∧
    r.pending_rewards = info.pending_stake ∧
    r.pending_fees = info.pending_fees := by
  simp only [roundRows] at hr
  rcases List.mem_append.mp hr with h | h <;>
  · split at h <;> simp at h
    subst h
    simp

theorem mem_processRounds_acc (price : String → String → Nat → ℚ)
    (currency : String) (ss sf : ℚ) (rounds : List RoundData) :
    ∀ (pS pF : ℚ) (r : LedgerRow),
      r ∈ processRounds price currency ss sf rounds pS pF →
      r.accumulated_rewards = max 0 (r.pending_rewards - ss) ∧
      r.accumulated_fees = max 0 (r.pending_fees - sf) := by
  induction rounds with
  | nil => intro pS pF r h; simp [processRounds] at h
  | cons rd rest ih =>
      intro pS pF r h
      cases hb : blockHashFalsy rd.blockHash with
      | true =>
          rw [processRounds_skip price currency ss sf rd rest pS pF (Or.inl hb)] at h
          exact ih pS pF r h
      | false =>
          cases hi : rd.info with
          | none =>
              rw [processRounds_skip price currency ss sf rd rest pS pF (Or.inr hi)] at h
              exact ih pS pF r h
          | some info =>
              rw [processRounds_cons_success price currency ss sf rd rest pS pF info hb hi] at h
              rcases List.mem_append.mp h with h | h
              · obtain ⟨har, haf, hpr, hpf⟩ :=
                  roundRows_fields price currency ss sf pS pF rd info r h
                rw [har, haf, hpr, hpf]
                exact ⟨rfl, rfl⟩
              · exact ih _ _ r h

theorem processedStakes_cons_skip (rd : RoundData) (rest : List RoundData)
    (h : blockHashFalsy rd.blockHash = true ∨ rd.info = none) :
    processedStakes (rd :: rest) = processedStakes rest := by
  rcases h with h | h <;> simp [processedStakes, List.filterMap_cons, h]

theorem processedFees_cons_skip (rd : RoundData) (rest : List RoundData)
    (h : blockHashFalsy rd.blockHash = true ∨ rd.info = none) :
    processedFees (rd :: rest) = processedFees rest := by
  rcases h with h | h <;> simp [processedFees, List.filterMap_cons, h]

theorem processedStakes_cons_success (rd : RoundData) (rest : List RoundData)
    (info : DelegatorInfo)
    (hb : blockHashFalsy rd.blockHash = false) (hi : rd.info = some info) :
    processedStakes (rd :: rest) = info.pending_stake :: processedStakes rest := by
  simp [processedStakes, List.filterMap_cons, hb, hi]

theorem processedFees_cons_success (rd : RoundData) (rest : List RoundData)
    (info : DelegatorInfo)
    (hb : blockHashFalsy rd.blockHash = false) (hi : rd.info = some info) :
    processedFees (rd :: rest) = info.pending_fees :: processedFees rest := by
  simp [processedFees, List.filterMap_cons, hb, hi]

theorem mem_processRounds_snap (price : String → String → Nat → ℚ)
    (currency : String) (ss sf : ℚ) (rounds : List RoundData) :
    ∀ (pS pF : ℚ) (r : LedgerRow),
      r ∈ processRounds price currency ss sf rounds pS pF →
      r.pending_rewards ∈ processedStakes rounds ∧
      r.pending_fees ∈ processedFees rounds := by
  induction rounds with
  | nil => intro pS pF r h; simp [processRounds] at h
  | cons rd rest ih =>
      intro pS pF r h
      cases hb : blockHashFalsy rd.blockHash with
      | true =>
          rw [processRounds_skip price currency ss sf rd rest pS pF (Or.inl hb)] at h
          have := ih pS pF r h
          rw [processedStakes_cons_skip rd rest (Or.inl hb),
            processedFees_cons_skip rd rest (Or.inl hb)]
          exact this
      | false =>
          cases hi : rd.info with
          | none =>
              rw [processRounds_skip price currency ss sf rd rest pS pF (Or.inr hi)] at h
              have := ih pS pF r h
              rw [processedStakes_cons_skip rd rest (Or.inr hi),
                processedFees_cons_skip rd rest (Or.inr hi)]
              exact this
          | some info =>
              rw [processRounds_cons_success price currency ss sf rd rest pS pF info hb hi] at h
              rw [processedStakes_cons_success rd rest info hb hi,
                processedFees_cons_success rd rest info hb hi]
              rcases List.mem_append.mp h with h | h
              · obtain ⟨_, _, hpr, hpf⟩ :=
                  roundRows_fields price currency ss sf pS pF rd info r h
                exact ⟨by rw [hpr]; exact List.mem_cons_self _ _,
                  by rw [hpf]; exact List.mem_cons_self _ _⟩
              · have := ih _ _ r h
                exact ⟨List.mem_cons_of_mem _ this.1, List.mem_cons_of_mem _ this.2⟩

theorem processRounds_pairwise (price : String → String → Nat → ℚ)
    (currency : String) (ss sf : ℚ) (rounds : List RoundData) :
    ∀ (pS pF : ℚ),
      (processedStakes rounds).Pairwise (· ≤ ·) →
      (processedFees rounds).Pairwise (· ≤ ·) →
      (processRounds price currency ss sf rounds pS pF).Pairwise
        (fun a b => a.accumulated_rewards ≤ b.accumulated_rewards) ∧
      (processRounds price currency ss sf rounds pS pF).Pairwise
        (fun a b => a.accumulated_fees ≤ b.accumulated_fees) := by
  induction rounds with
  | nil => intro pS pF _ _; simp [processRounds]
  | cons rd rest ih =>
      intro pS pF hstake hfees
      rcases Bool.eq_false_or_eq_true (blockHashFalsy rd.blockHash) with hb | hb
      · rw [processRounds_skip price currency ss sf rd rest pS pF (Or.inl hb)]
        rw [processedStakes_cons_skip rd rest (Or.inl hb)] at hstake
        rw [processedFees_cons_skip rd rest (Or.inl hb)] at hfees
        exact ih pS pF hstake hfees
      · rcases hskip : rd.info with hinfo | info
        · rw [processRounds_skip price currency ss sf rd rest pS pF (Or.inr hskip)]
          rw [processedStakes_cons_skip rd rest (Or.inr hskip)] at hstake
          rw [processedFees_cons_skip rd rest (Or.inr hskip)] at hfees
          exact ih pS pF hstake hfees
        · rw [processRounds_cons_success price currency ss sf rd rest pS pF info hb hskip]
          rw [processedStakes_cons_success rd rest info hb hskip] at hstake
          rw [processedFees_cons_success rd rest info hb hskip] at hfees
          obtain ⟨hsHead, hsTail⟩ := List.pairwise_cons.mp hstake
          obtain ⟨hfHead, hfTail⟩ := List.pairwise_cons.mp hfees
          have hrest := ih info.pending_stake info.pending_fees hsTail hfTail
          constructor
          · rw [List.pairwise_append]
            refine ⟨?_, hrest.1, ?_⟩
            · exact List.pairwise_of_forall_mem_list (fun a ha b hb2 =>
                le_of_eq (by
                  rw [(roundRows_fields price currency ss sf pS pF rd info a ha).1,
                    (roundRows_fields price currency ss sf pS pF rd info b hb2).1]))
            · intro a ha b hb2
              rw [(roundRows_fields price currency ss sf pS pF rd info a ha).1,
                (mem_processRounds_acc price currency ss sf rest _ _ b hb2).1]
              have hmem := (mem_processRounds_snap price currency ss sf rest _ _ b hb2).1
              exact max_le_max le_rfl (sub_le_sub_right (hsHead _ hmem) ss)
          · rw [List.pairwise_append]
            refine ⟨?_, hrest.2, ?_⟩
            · exact List.pairwise_of_forall_mem_list (fun a ha b hb2 =>
                le_of_eq (by
                  rw [(roundRows_fields price currency ss sf pS pF rd info a ha).2.1,
                    (roundRows_fields price currency ss sf pS pF rd info b hb2).2.1]))
            · intro a ha b hb2
              rw [(roundRows_fields price currency ss sf pS pF rd info a ha).2.1,
                (mem_processRounds_acc price currency ss sf rest _ _ b hb2).2]
              have hmem := (mem_processRounds_snap price currency ss sf rest _ _ b hb2).2
              exact max_le_max le_rfl (sub_le_sub_right (hfHead _ hmem) sf)

/-- Stable-argsort order on positions: strictly smaller key, or equal keys in
original position order. -/
def idxRel (key : Nat → Nat) (a b : Nat) : Prop :=
  key a < key b ∨ (key a = key b ∧ a < b)

theorem insIdx_perm (key : Nat → Nat) (vi : Nat) :
    ∀ l : List Nat, List.Perm (insIdx key vi l) (vi :: l) := by
  intro l
  induction l with
  | nil => simp [insIdx]
  | cons j rest ih =>
      simp only [insIdx]
      split
      · exact List.Perm.refl _
      · exact (List.Perm.cons j ih).trans (List.Perm.swap vi j rest)

theorem insIdx_pairwise (key : Nat → Nat) (vi : Nat) :
    ∀ l : List Nat, l.Pairwise (idxRel key) → (∀ a ∈ l, a < vi) →
      (insIdx key vi l).Pairwise (idxRel key) := by
  intro l
  induction l with
  | nil => intro _ _; simp [insIdx]
  | cons j rest ih =>
      intro hp hlt
      obtain ⟨hjr, hrp⟩ := List.pairwise_cons.mp hp
      simp only [insIdx]
      split
      · rename_i hk
        refine List.pairwise_cons.mpr ⟨?_, hp⟩
        intro b hb
        rcases List.mem_cons.mp hb with rfl | hb2
        · exact Or.inl hk
        · rcases hjr b hb2 with h | h
          · exact Or.inl (lt_trans hk h)
          · exact Or.inl (lt_of_lt_of_le hk (le_of_eq h.1))
      · rename_i hk
        refine List.pairwise_cons.mpr
          ⟨?_, ih hrp (fun a ha => hlt a (List.mem_cons_of_mem _ ha))⟩
        intro b hb
        rcases List.mem_cons.mp ((List.Perm.mem_iff (insIdx_perm key vi rest)).mp hb)
          with rfl | hb2
        · rcases lt_or_eq_of_le (not_lt.mp hk) with h | h
          · exact Or.inl h
          · exact Or.inr ⟨h, hlt j (List.mem_cons_self j rest)⟩
        · exact hjr b hb2

theorem insFold_pairwise (key : Nat → Nat) :
    ∀ (l acc : List Nat),
      acc.Pairwise (idxRel key) →
      (∀ a ∈ acc, ∀ b ∈ l, a < b) →
      l.Pairwise (· < ·) →
      (l.foldl (fun acc vi => insIdx key vi acc) acc).Pairwise (idxRel key) ∧
      List.Perm (l.foldl (fun acc vi => insIdx key vi acc) acc) (acc ++ l) := by
  intro l
  induction l with
  | nil =>
      intro acc hp _ _
      exact ⟨hp, by simp⟩
  | cons b l ih =>
      intro acc hp hcross hl
      obtain ⟨hbl, hl'⟩ := List.pairwise_cons.mp hl
      simp only [List.foldl_cons]
      have hacc' : (insIdx key b acc).Pairwise (idxRel key) :=
        insIdx_pairwise key b acc hp (fun a ha => hcross a ha b (List.mem_cons_self b l))
      have hcross' : ∀ a ∈ insIdx key b acc, ∀ c ∈ l, a < c := by
        intro a ha c hc
        rcases List.mem_cons.mp ((List.Perm.mem_iff (insIdx_perm key b acc)).mp ha)
          with rfl | ha2
        · exact hbl c hc
        · exact hcross a ha2 c (List.mem_cons_of_mem _ hc)
      obtain ⟨h1, h2⟩ := ih (insIdx key b acc) hacc' hcross' hl'
      refine ⟨h1, h2.trans ?_⟩
      have hstep : List.Perm (insIdx key b acc ++ l) ((b :: acc) ++ l) :=
        (insIdx_perm key b acc).append_right l
      exact hstep.trans List.perm_middle.symm

theorem insSortL_stable (key : Nat → Nat) (n : Nat) :
    (insSortL key (List.range n)).Pairwise (idxRel key) ∧
    List.Perm (insSortL key (List.range n)) (List.range n) := by
  have h := insFold_pairwise key (List.range n) [] List.Pairwise.nil
    (by simp) (List.pairwise_lt_range n)
  simpa [insSortL] using h

/-- Signed contribution of a row to the running total of currency `cur`:
`incoming` amounts add, `outgoing` amounts subtract, rows of another currency
contribute nothing. -/
def signedAmount (cur : String) (r : LedgerRow) : ℚ :=
  if r.currency = cur then
    (if r.direction = "incoming" then r.amount else -r.amount)
  else 0

theorem add_cumulative_balances_cons (r : LedgerRow) (rest : List LedgerRow)
    (eth lpt : ℚ) :
    add_cumulative_balances (r :: rest) eth lpt =
      ⟨r, eth + signedAmount "ETH" r, lpt + signedAmount "LPT" r⟩ ::
        add_cumulative_balances rest (eth + signedAmount "ETH" r)
          (lpt + signedAmount "LPT" r) := by
  have he : (if r.currency = "ETH" then
      eth + (if r.direction = "incoming" then r.amount else -r.amount) else eth)
      = eth + signedAmount "ETH" r := by
    simp only [signedAmount]
    split <;> simp
  have hl : (if r.currency = "LPT" then
      lpt + (if r.direction = "incoming" then r.amount else -r.amount) else lpt)
      = lpt + signedAmount "LPT" r := by
    simp only [signedAmount]
    split <;> simp
  simp only [add_cumulative_balances]
  rw [he, hl]

theorem add_cumulative_balances_getLast (rows : List LedgerRow) :
    ∀ (eth lpt : ℚ), rows ≠ [] →
      ((add_cumulative_balances rows eth lpt).getLast?.map
        (fun c => c.cumulative_balance_eth))
        = some (eth + (rows.map (signedAmount "ETH")).sum) ∧
      ((add_cumulative_balances rows eth lpt).getLast?.map
        (fun c => c.cumulative_balance_lpt))
        = some (lpt + (rows.map (signedAmount "LPT")).sum) := by
  induction rows with
  | nil => intro eth lpt h; exact absurd rfl h
  | cons r rest ih =>
      intro eth lpt _
      rw [add_cumulative_balances_cons]
      cases rest with
      | nil => simp [add_cumulative_balances]
      | cons r2 t =>
          have h2 := ih (eth + signedAmount "ETH" r) (lpt + signedAmount "LPT" r)
            (by simp)
          rw [add_cumulative_balances_cons] at h2 ⊢
          rw [List.getLast?_cons_cons, ← add_cumulative_balances_cons]
          constructor
          · rw [(by rw [add_cumulative_balances_cons] : add_cumulative_balances
              (r2 :: t) (eth + signedAmount "ETH" r) (lpt + signedAmount "LPT" r)
              = _), h2.1]  
            congr 1
            simp [List.sum_cons]
            ring
          · rw [(by rw [add_cumulative_balances_cons] : add_cumulative_balances
              (r2 :: t) (eth + signedAmount "ETH" r) (lpt + signedAmount "LPT" r)
              = _), h2.2]
            congr 1
            simp [List.sum_cons]
            ring

/-- The decorated `fetch_delegator_info` resolves on its very first attempt:
the body catches every exception, so the retry wrapper sees a normal return
and never retries, and the caller receives an `Option`, never an exception. -/
theorem fetch_delegator_info_ok (oracles : Nat → FetchOracle) :
    fetch_delegator_info oracles =
      Except.ok (fetch_delegator_info_body (oracles 0)) := rfl

/-- Starting pending stake as computed at lines 465-471: `0` when the rounds
list is empty or the boundary snapshot fetch returned `None`. -/
def startingPendingStakeOf (rounds : List RoundData) (sOr : Nat → FetchOracle) : ℚ :=
  ((if rounds.isEmpty then none else fetch_delegator_info_body (sOr 0)).map
    (fun i => i.pending_stake)).getD 0

/-- Starting pending fees as computed at lines 472-474. -/
def startingPendingFeesOf (rounds : List RoundData) (sOr : Nat → FetchOracle) : ℚ :=
  ((if rounds.isEmpty then none else fetch_delegator_info_body (sOr 0)).map
    (fun i => i.pending_fees)).getD 0

theorem runMainE_ok (currency : String) (price : String → String → Nat → ℚ)
    (sb eb : Nat) (seb slb eeb elb : ℚ)
    (rounds : List RoundData) (sOr eOr : Nat → FetchOracle)
    (bondL unbondL tL wL : List LedgerRow) :
    runMainE ⟨currency, price, .ok sb, .ok eb, .ok seb, .ok slb, .ok eeb, .ok elb,
      rounds, sOr, eOr, .ok bondL, .ok unbondL, .ok tL, .ok wL⟩ =
      (let balance_data := process_delegator_balances_over_rounds price rounds
        currency (startingPendingStakeOf rounds sOr) (startingPendingFeesOf rounds sOr)
      if balance_data.isEmpty then
        Except.error "KeyError: transaction type"
      else
        let reward_data := balance_data.filter
          (fun r => r.transaction_type == "pending rewards")
        let fee_data := balance_data.filter
          (fun r => r.transaction_type == "pending fees")
        let ne := [reward_data, fee_data, bondL, unbondL, tL, wL].filter
          (fun l => !l.isEmpty)
        if ne.isEmpty then Except.ok RunOutcome.noIncomeData
        else Except.ok (RunOutcome.report
          (add_cumulative_balances (mergeLedger ne) seb slb))) := by
  cases h : rounds.isEmpty <;>
    simp only [runMainE, h, fetch_delegator_info_ok, Bool.false_eq_true,
      if_false, if_true, Except.bind, pure, Except.pure,
      startingPendingStakeOf, startingPendingFeesOf] <;>
    rfl

theorem runMain_ok (currency : String) (price : String → String → Nat → ℚ)
    (sb eb : Nat) (seb slb eeb elb : ℚ)
    (rounds : List RoundData) (sOr eOr : Nat → FetchOracle)
    (bondL unbondL tL wL : List LedgerRow) :
    runMain ⟨currency, price, .ok sb, .ok eb, .ok seb, .ok slb, .ok eeb, .ok elb,
      rounds, sOr, eOr, .ok bondL, .ok unbondL, .ok tL, .ok wL⟩ =
      (let balance_data := process_delegator_balances_over_rounds price rounds
        currency (startingPendingStakeOf rounds sOr) (startingPendingFeesOf rounds sOr)
      if balance_data.isEmpty then
        RunOutcome.fatal "KeyError: transaction type"
      else
        let reward_data := balance_data.filter
          (fun r => r.transaction_type == "pending rewards")
        let fee_data := balance_data.filter
          (fun r => r.transaction_type == "pending fees")
        let ne := [reward_data, fee_data, bondL, unbondL, tL, wL].filter
          (fun l => !l.isEmpty)
        if ne.isEmpty then RunOutcome.noIncomeData
        else RunOutcome.report
          (add_cumulative_balances (mergeLedger ne) seb slb)) := by
  cases hbd : (process_delegator_balances_over_rounds price rounds currency
      (startingPendingStakeOf rounds sOr) (startingPendingFeesOf rounds sOr)).isEmpty
  · cases hne : (List.filter (fun l => !l.isEmpty)
        [List.filter (fun r => r.transaction_type == "pending rewards")
          (process_delegator_balances_over_rounds price rounds currency
            (startingPendingStakeOf rounds sOr) (startingPendingFeesOf rounds sOr)),
         List.filter (fun r => r.transaction_type == "pending fees")
          (process_delegator_balances_over_rounds price rounds currency
            (startingPendingStakeOf rounds sOr) (startingPendingFeesOf rounds sOr)),
         bondL, unbondL, tL, wL]).isEmpty <;>
      simp only [runMain, runMainE_ok, hbd, hne, Bool.false_eq_true, if_false,
        if_true]
  · simp only [runMain, runMainE_ok, hbd, if_true]

/-- A snapshot with the given pending stake and fees; the remaining fields
take placeholder values (they never flow into the row computations). -/
def mkInfo (ps pf : ℚ) : DelegatorInfo :=
  { bonded_amount := 0, fees := 0, delegate_address := "0xorch"
    delegated_amount := 0, start_round := 0, last_claim_round := 0
    next_unbonding_lock_id := 0, pending_stake := ps, pending_fees := pf }

/-- A constant price oracle: 10 currency units per coin at every timestamp. -/
def demoPrice : String → String → Nat → ℚ := fun _ _ _ => 10

/-- An oracle view in which every remote call raises (e.g. sustained RPC
timeouts): the `try` body of `fetch_delegator_info` then returns `None`. -/
def failOracle : FetchOracle :=
  ⟨.error "RPC timeout", .error "RPC timeout", .error "RPC timeout",
    .error "RPC timeout"⟩

/-- An oracle view whose calls all succeed and report zero pending stake and
zero pending fees. -/
def zeroPendingOracle : FetchOracle :=
  ⟨.ok "0x0", .ok ⟨0, 0, "0x0", 0, 0, 0, 0⟩, .ok 0, .ok 0⟩

/-- Two rounds in which the delegator's pending stake drops from 110 to 105
(e.g. after an unbond) while pending fees rise from 0 to 5; window-start
pending stake is 100. -/
def demoRoundsC4 : List RoundData :=
  [⟨1, 1000, some "h1", some (mkInfo 110 0)⟩,
   ⟨2, 2000, some "h2", some (mkInfo 105 5)⟩]

/-- The spec scenario round: pending stake rises from 100 to 105 LPT. -/
def demoRoundC5 : RoundData := ⟨7, 1000, some "h1", some (mkInfo 105 0)⟩

/-- A round whose block-hash resolution returned `None`. -/
def demoSkippedRound : RoundData := ⟨3, 1500, none, none⟩

/-- The single reward row produced by processing `demoRoundC5` from previous
pending stake 100 at price 10. -/
def demoC7Row : LedgerRow :=
  { timestamp := 1000, round := 7, transaction_hash := "", transaction_url := ""
    direction := "incoming", transaction_type := "pending rewards"
    currency := "LPT", amount := 5, value := 50, price := 10
    pending_rewards := 105, pending_fees := 0, accumulated_rewards := 5
    accumulated_fees := 0, source_function := "pendingStake" }

/-- Claim C9: `fetch_delegator_info` never propagates an exception to its
caller: for every sequence of per-attempt oracle views it returns
`Except.ok` of the `try`-body's result (a complete snapshot dictionary or
`None`) computed from the first attempt alone — the body catches every
exception, so the declared 5-attempt retry-on-exception policy never
triggers and attempts beyond the first are never consulted. -/
theorem claim_C9 (oracles : Nat → FetchOracle) :
    fetch_delegator_info oracles =
      Except.ok (fetch_delegator_info_body (oracles 0)) := rfl

/-- Claim C10: in `fetch_delegator_balances` the supplied timestamp argument
influences only the price and value fields: the ETH balance, unbonded LPT
balance, pending fees and bonded (pending-stake) balance are read at the
current head block and current round, so two runs against the same chain
state with different timestamps return identical balance fields. -/
theorem claim_C10 (c : ChainState) (wallet_address : String)
    (ts1 ts2 : Nat) (currency : String) :
    (fetch_delegator_balances c wallet_address ts1 currency).eth_balance =
      (fetch_delegator_balances c wallet_address ts2 currency).eth_balance ∧
    (fetch_delegator_balances c wallet_address ts1 currency).lpt_unbonded_balance =
      (fetch_delegator_balances c wallet_address ts2 currency).lpt_unbonded_balance ∧
    (fetch_delegator_balances c wallet_address ts1 currency).eth_unclaimed_fees =
      (fetch_delegator_balances c wallet_address ts2 currency).eth_unclaimed_fees ∧
    (fetch_delegator_balances c wallet_address ts1 currency).lpt_bonded_balance =
      (fetch_delegator_balances c wallet_address ts2 currency).lpt_bonded_balance :=
  ⟨rfl, rfl, rfl, rfl⟩

/-- Claim C6: a round whose block-hash resolution is falsy or whose snapshot
fetch returns `None` contributes no rows and does not advance the
previous-round accumulators, so later rounds are processed against the last
successfully observed snapshot; and the accumulators start from the window's
starting pending stake and fees. -/
theorem claim_C6 (price : String → String → Nat → ℚ) (currency : String)
    (ss sf : ℚ) (rd : RoundData) (rest : List RoundData) (pS pF : ℚ)
    (h : blockHashFalsy rd.blockHash = true ∨ rd.info = none) :
    processRounds price currency ss sf (rd :: rest) pS pF =
      processRounds price currency ss sf rest pS pF ∧
    (∀ rounds : List RoundData,
      process_delegator_balances_over_rounds price rounds currency ss sf =
        processRounds price currency ss sf rounds ss sf) :=
  ⟨processRounds_skip price currency ss sf rd rest pS pF h, fun _ => rfl⟩

/-- Witness for C6 at a concrete skipped round. -/
theorem claim_C6_witness :
    (blockHashFalsy demoSkippedRound.blockHash = true ∨
      demoSkippedRound.info = none) ∧
    processRounds demoPrice "EUR" 0 0 (demoSkippedRound :: []) 0 0 =
      processRounds demoPrice "EUR" 0 0 [] 0 0 :=
  ⟨Or.inl rfl,
    (claim_C6 demoPrice "EUR" 0 0 demoSkippedRound [] 0 0 (Or.inl rfl)).1⟩

/-- Claim C7: every emitted row's `accumulated rewards` equals
`max 0 (current pending stake − starting pending stake)` (the row's
`pending rewards` field carries that round's pending stake) and its
`accumulated fees` equals `max 0 (current pending fees − starting pending
fees)`, measured against the window-start snapshot and independent of the
previous-round accumulators `pS`, `pF` — hence independent of which earlier
rounds were skipped. -/
theorem claim_C7 (price : String → String → Nat → ℚ) (currency : String)
    (ss sf : ℚ) (rounds : List RoundData) (pS pF : ℚ) (r : LedgerRow)
    (h : r ∈ processRounds price currency ss sf rounds pS pF) :
    r.accumulated_rewards = max 0 (r.pending_rewards - ss) ∧
    r.accumulated_fees = max 0 (r.pending_fees - sf) :=
  mem_processRounds_acc price currency ss sf rounds pS pF r h

/-- Witness for C7 at a concrete processed round. -/
theorem claim_C7_witness :
    demoC7Row ∈ processRounds demoPrice "EUR" 100 0 (demoRoundC5 :: []) 100 0 ∧
    demoC7Row.accumulated_rewards = max 0 (demoC7Row.pending_rewards - 100) ∧
    demoC7Row.accumulated_fees = max 0 (demoC7Row.pending_fees - 0) := by
  have hmem : demoC7Row ∈ processRounds demoPrice "EUR" 100 0
      (demoRoundC5 :: []) 100 0 := by
    norm_num [processRounds, roundRows, demoRoundC5, mkInfo, demoPrice,
      blockHashFalsy, max_def, demoC7Row,
      (by decide : "h1".isEmpty = false)]
  exact ⟨hmem,
    (claim_C7 demoPrice "EUR" 100 0 (demoRoundC5 :: []) 100 0 demoC7Row hmem).1,
    (claim_C7 demoPrice "EUR" 100 0 (demoRoundC5 :: []) 100 0 demoC7Row hmem).2⟩

/-- Claim C5: for a successfully processed round, its contribution to the
output is exactly `roundRows`; a reward row is emitted iff
`reward_income = max 0 (current pending stake − previous pending stake)` is
strictly positive, and it carries currency LPT, `amount = reward_income`,
and `value = reward_income` times the LPT price at the round's own
timestamp; the analogous statement holds for fee rows with pending fees,
currency ETH and the ETH price. -/
theorem claim_C5 (price : String → String → Nat → ℚ) (currency : String)
    (ss sf pS pF : ℚ) (rd : RoundData) (info : DelegatorInfo)
    (rest : List RoundData)
    (hb : blockHashFalsy rd.blockHash = false) (hi : rd.info = some info) :
    processRounds price currency ss sf (rd :: rest) pS pF =
      roundRows price currency ss sf pS pF rd info ++
        processRounds price currency ss sf rest info.pending_stake
          info.pending_fees ∧
    ((∃ r ∈ roundRows price currency ss sf pS pF rd info,
        r.transaction_type = "pending rewards") ↔
      0 < max 0 (info.pending_stake - pS)) ∧
    (∀ r ∈ roundRows price currency ss sf pS pF rd info,
      r.transaction_type = "pending rewards" →
        r.currency = "LPT" ∧ r.amount = max 0 (info.pending_stake - pS) ∧
        r.price = price "LPT" currency rd.startTimestamp ∧
        r.value = max 0 (info.pending_stake - pS) *
          price "LPT" currency rd.startTimestamp) ∧
    ((∃ r ∈ roundRows price currency ss sf pS pF rd info,
        r.transaction_type = "pending fees") ↔
      0 < max 0 (info.pending_fees - pF)) ∧
    (∀ r ∈ roundRows price currency ss sf pS pF rd info,
      r.transaction_type = "pending fees" →
        r.currency = "ETH" ∧ r.amount = max 0 (info.pending_fees - pF) ∧
        r.price = price "ETH" currency rd.startTimestamp ∧
        r.value = max 0 (info.pending_fees - pF) *
          price "ETH" currency rd.startTimestamp) := by
  refine ⟨processRounds_cons_success price currency ss sf rd rest pS pF info hb hi,
    ?_, ?_, ?_, ?_⟩ <;>
  · simp only [roundRows]
    by_cases h1 : 0 < max 0 (info.pending_stake - pS) <;>
      by_cases h2 : 0 < max 0 (info.pending_fees - pF) <;>
        simp [h1, h2]

/-- Witness for C5 at the spec scenario: pending stake rises from 100 to 105
with price 10, so a reward row exists (and by `claim_C5` it carries
`amount = 5` and `value = 50`). -/
theorem claim_C5_witness :
    blockHashFalsy demoRoundC5.blockHash = false ∧
    demoRoundC5.info = some (mkInfo 105 0) ∧
    ((∃ r ∈ roundRows demoPrice "EUR" 100 0 100 0 demoRoundC5 (mkInfo 105 0),
        r.transaction_type = "pending rewards") ↔
      0 < max 0 ((mkInfo 105 0).pending_stake - 100)) :=
  ⟨by decide, rfl,
    (claim_C5 demoPrice "EUR" 100 0 100 0 demoRoundC5 (mkInfo 105 0) []
      (by decide) rfl).2.1⟩

/-- Counterexample to C4 as stated: with window-start pending stake 100 and
two processed rounds whose pending stake goes 110 then 105 (pending fees 0
then 5), the emitted rows carry accumulated-rewards values [10, 5] — a
strictly decreasing sequence, so `accumulated rewards` is not monotonically
non-decreasing across the processed rounds. -/
theorem claim_C4_counterexample :
    ((process_delegator_balances_over_rounds demoPrice demoRoundsC4 "EUR" 100 0).map
      (fun r => r.accumulated_rewards)) = [10, 5] ∧
    ¬ ((process_delegator_balances_over_rounds demoPrice demoRoundsC4 "EUR" 100 0).map
      (fun r => r.accumulated_rewards)).Chain' (· ≤ ·) := by
  norm_num [process_delegator_balances_over_rounds, processRounds, roundRows,
    blockHashFalsy, demoRoundsC4, demoPrice, mkInfo, max_def, List.chain'_cons,
    (by decide : "h1".isEmpty = false), (by decide : "h2".isEmpty = false)]

/-- Claim C4 as amended: the accumulated-rewards (resp. accumulated-fees)
values on the emitted rows are non-decreasing in emission order provided the
pending stake (resp. pending fees) of the successfully processed rounds is
itself non-decreasing in round order.  The code does not guarantee that
proviso: a delegator's pending stake can drop between rounds (see the
counterexample), and then `max 0 (current − start)` drops with it. -/
theorem claim_C4 (price : String → String → Nat → ℚ) (currency : String)
    (ss sf : ℚ) (rounds : List RoundData) (pS pF : ℚ)
    (hstake : (processedStakes rounds).Pairwise (· ≤ ·))
    (hfees : (processedFees rounds).Pairwise (· ≤ ·)) :
    ((processRounds price currency ss sf rounds pS pF).map
      (fun r => r.accumulated_rewards)).Pairwise (· ≤ ·) ∧
    ((processRounds price currency ss sf rounds pS pF).map
      (fun r => r.accumulated_fees)).Pairwise (· ≤ ·) := by
  have h := processRounds_pairwise price currency ss sf rounds pS pF hstake hfees
  exact ⟨List.pairwise_map.mpr h.1, List.pairwise_map.mpr h.2⟩

/-- Two successfully processed rounds with non-decreasing pending stake and
fees. -/
def demoRoundsC4W : List RoundData :=
  [⟨1, 1000, some "h1", some (mkInfo 100 1)⟩,
   ⟨2, 2000, some "h2", some (mkInfo 105 2)⟩]

/-- Witness for the amended C4: two processed rounds with non-decreasing
pending stake (100 then 105) and fees (1 then 2). -/
theorem claim_C4_witness :
    (processedStakes demoRoundsC4W).Pairwise (· ≤ ·) ∧
    (processedFees demoRoundsC4W).Pairwise (· ≤ ·) ∧
    ((processRounds demoPrice "EUR" 90 0 demoRoundsC4W 90 0).map
      (fun r => r.accumulated_rewards)).Pairwise (· ≤ ·) := by
  have h1 : (processedStakes demoRoundsC4W).Pairwise (· ≤ ·) := by
    norm_num [processedStakes, demoRoundsC4W, blockHashFalsy, mkInfo,
      List.filterMap_cons, (by decide : "h1".isEmpty = false),
      (by decide : "h2".isEmpty = false)]
  have h2 : (processedFees demoRoundsC4W).Pairwise (· ≤ ·) := by
    norm_num [processedFees, demoRoundsC4W, blockHashFalsy, mkInfo,
      List.filterMap_cons, (by decide : "h1".isEmpty = false),
      (by decide : "h2".isEmpty = false)]
  exact ⟨h1, h2,
    (claim_C4 demoPrice "EUR" 90 0 demoRoundsC4W 90 0 h1 h2).1⟩

/-- A synthetic merged-ledger row: all rows share one timestamp, and `round`
records the row's insertion position so reorderings are visible. -/
def c2Row (i : Nat) : LedgerRow :=
  { defaultLedgerRow with timestamp := 1700000000, round := i }

/-- Seventeen equal-timestamp rows spread over the six row-set categories in
their fixed insertion order (3 reward, 3 fee, 3 bond, 3 unbond,
3 transfer-bond, 2 wallet rows). -/
def demoSetsC2 : List (List LedgerRow) :=
  [[c2Row 0, c2Row 1, c2Row 2], [c2Row 3, c2Row 4, c2Row 5],
   [c2Row 6, c2Row 7, c2Row 8], [c2Row 9, c2Row 10, c2Row 11],
   [c2Row 12, c2Row 13, c2Row 14], [c2Row 15, c2Row 16]]

/-- Two equal-timestamp rows in the first category preceded in merge order by
an earlier row of a second category: 3 rows in total. -/
def demoSmallC2 : List (List LedgerRow) :=
  [[c2Row 0, c2Row 1],
   [{ defaultLedgerRow with timestamp := 1600000000, round := 2 }]]

/-- Counterexample to C2 as stated: on a 17-row merge whose timestamps are
all equal, the default-kind argsort run by `sort_values` partitions before
its insertion-sort cutoff and scrambles the ties: the merged output carries
the rows in insertion order [0, 14, 13, …], so e.g. the rows inserted at
positions A = 1 and B = 14 (different categories, identical timestamps) come
out B-before-A, violating stability. -/
theorem claim_C2_counterexample :
    (mergeKeys demoSetsC2).getD 1 0 = (mergeKeys demoSetsC2).getD 14 0 ∧
    (mergeLedger demoSetsC2).map (fun r => r.round) =
      [0, 14, 13, 12, 11, 10, 9, 15, 8, 6, 5, 4, 3, 2, 1, 7, 16] ∧
    ¬ (mergePerm demoSetsC2).Pairwise (fun a b =>
        (mergeKeys demoSetsC2).getD a 0 = (mergeKeys demoSetsC2).getD b 0 →
          a < b) := by
  refine ⟨by decide, by decide, by decide⟩

/-- Claim C2 as amended: the sort permutation applied by the Ledger Merger is
numpy's default-kind (quicksort/introsort) argsort of the timestamp column,
which is **not** stable in general; stability does hold whenever the merged
ledger has at most 16 rows, where the algorithm reduces to a single
insertion sort: the permutation then lists every original position exactly
once, ordered by timestamp with ties in insertion order. -/
theorem claim_C2 (rowSets : List (List LedgerRow))
    (h : (mergeKeys rowSets).length ≤ 16) :
    (mergePerm rowSets).Pairwise
      (idxRel (fun i => (mergeKeys rowSets).getD i 0)) ∧
    List.Perm (mergePerm rowSets) (List.range (mergeKeys rowSets).length) := by
  have hs := insSortL_stable (fun i => (mergeKeys rowSets).getD i 0)
    (mergeKeys rowSets).length
  have heq : mergePerm rowSets =
      insSortL (fun i => (mergeKeys rowSets).getD i 0)
        (List.range (mergeKeys rowSets).length) := by
    unfold mergePerm npyAargsort
    rw [if_pos h]
  rw [heq]
  exact hs

/-- Witness for the amended C2 at a concrete 3-row merge. -/
theorem claim_C2_witness :
    (mergeKeys demoSmallC2).length ≤ 16 ∧
    (mergePerm demoSmallC2).Pairwise
      (idxRel (fun i => (mergeKeys demoSmallC2).getD i 0)) ∧
    List.Perm (mergePerm demoSmallC2) (List.range (mergeKeys demoSmallC2).length) :=
  ⟨by decide, (claim_C2 demoSmallC2 (by decide)).1,
    (claim_C2 demoSmallC2 (by decide)).2⟩

/-- A single discrete bond-category row: 1 ETH incoming. -/
def demoBondRow : LedgerRow :=
  { defaultLedgerRow with
    timestamp := 1000
    round := 0
    direction := "incoming"
    transaction_type := "bond"
    currency := "ETH"
    amount := 1 }

/-- The single reward row produced by processing `demoRoundC5` when the
window-start pending stake and fees are 0 (the boundary snapshot failed):
reward income `max 0 (105 - 0) = 105` at price 10. -/
def demoRewardRow : LedgerRow :=
  { timestamp := 1000, round := 7, transaction_hash := "", transaction_url := ""
    direction := "incoming", transaction_type := "pending rewards"
    currency := "LPT", amount := 105, value := 1050, price := 10
    pending_rewards := 105, pending_fees := 0, accumulated_rewards := 105
    accumulated_fees := 0, source_function := "pendingStake" }

/-- A run in which both window-boundary delegator-snapshot fetches fail
(every attempt raises, so `fetch_delegator_info` returns `None`), while every
other remote read succeeds; the window holds one processed round whose
pending stake is 105 (so the per-round pass emits a reward row and the
line-521 column selection succeeds), one bond event, and the independently
fetched ending ETH balance is 5 while the starting one is 0. -/
def demoRun : RunInputs :=
  { currency := "EUR", price := demoPrice
    startBlockNumber := .ok 1, endBlockNumber := .ok 2
    startingEthBalance := .ok 0, startingLptBalance := .ok 0
    endEthBalance := .ok 5, endLptBalance := .ok 0
    rounds := [demoRoundC5], startOracles := fun _ => failOracle
    endOracles := fun _ => failOracle
    bondRows := .ok [demoBondRow], unbondRows := .ok []
    transferBondRows := .ok [], walletRows := .ok [] }

theorem demoBalance_eval :
    process_delegator_balances_over_rounds demoPrice [demoRoundC5] "EUR"
      (startingPendingStakeOf [demoRoundC5] (fun _ => failOracle))
      (startingPendingFeesOf [demoRoundC5] (fun _ => failOracle))
      = [demoRewardRow] := by
  norm_num [process_delegator_balances_over_rounds, processRounds, roundRows,
    blockHashFalsy, demoRoundC5, demoPrice, mkInfo, max_def, demoRewardRow,
    startingPendingStakeOf, startingPendingFeesOf, fetch_delegator_info_body,
    failOracle, (by decide : "h1".isEmpty = false)]

theorem demoRun_eval : runMain demoRun = RunOutcome.report
    [⟨demoRewardRow, 0, 105⟩, ⟨demoBondRow, 1, 105⟩] := by
  show runMain ⟨"EUR", demoPrice, .ok 1, .ok 2, .ok 0, .ok 0, .ok 5, .ok 0,
    [demoRoundC5], (fun _ => failOracle), (fun _ => failOracle),
    .ok [demoBondRow], .ok [], .ok [], .ok []⟩ = _
  rw [runMain_ok, demoBalance_eval]
  norm_num [mergeLedger, mergePerm, mergeKeys, npyAargsort, insSortL, insIdx,
    add_cumulative_balances, demoBondRow, demoRewardRow, defaultLedgerRow,
    List.filter, (by decide : ("ETH" = "LPT") = False),
    (by decide : ("LPT" = "ETH") = False),
    (by decide : ("pending rewards" == "pending rewards") = true),
    (by decide : ("pending rewards" == "pending fees") = false),
    (by decide : ("bond" == "pending rewards") = false),
    (by decide : ("bond" == "pending fees") = false)]

/-- Claim C1 as amended: the final cumulative ETH (resp. LPT) balance stamped
by `add_cumulative_balances` equals the starting ETH (resp. LPT) balance plus
the signed sum of the ETH (resp. LPT) row amounts.  Nothing ties that value
to the independently fetched ending balance at `end_block`: the
reconciliation equality of the original claim is not enforced anywhere and
fails on runs whose balance changes are not all covered by ledger rows (see
the counterexample; spec §9 itself flags the invariant as unverified). -/
theorem claim_C1 (rows : List LedgerRow) (eth lpt : ℚ) (h : rows ≠ []) :
    ((add_cumulative_balances rows eth lpt).getLast?.map
      (fun c => c.cumulative_balance_eth))
      = some (eth + (rows.map (signedAmount "ETH")).sum) ∧
    ((add_cumulative_balances rows eth lpt).getLast?.map
      (fun c => c.cumulative_balance_lpt))
      = some (lpt + (rows.map (signedAmount "LPT")).sum) :=
  add_cumulative_balances_getLast rows eth lpt h

/-- Witness for the amended C1 on a one-row ledger. -/
theorem claim_C1_witness :
    ([demoBondRow] : List LedgerRow) ≠ [] ∧
    ((add_cumulative_balances [demoBondRow] 0 0).getLast?.map
      (fun c => c.cumulative_balance_eth))
      = some (0 + ([demoBondRow].map (signedAmount "ETH")).sum) :=
  ⟨by simp, (claim_C1 [demoBondRow] 0 0 (by simp)).1⟩

/-- Counterexample to C1 as stated: `demoRun` completes (one processed round
emitting a reward row, so the line-521 column selection succeeds, plus one
bond event) and produces a non-empty merged ledger whose final cumulative
ETH balance is 0 + 1 = 1, while the independently fetched ending ETH balance
at `end_block` is 5: they differ by 4, far beyond the 1e-6 tolerance.  (On a
real chain this happens whenever the wallet's ETH moves in ways the six row
categories do not capture, e.g. gas spent or a transfer outside the window's
indexed events.) -/
theorem claim_C1_counterexample :
    demoRun.endEthBalance = Except.ok 5 ∧
    finalCumEth (runMain demoRun) = some 1 ∧
    ¬ (|(1 : ℚ) - 5| ≤ 1 / 1000000) := by
  refine ⟨rfl, ?_, by norm_num⟩
  rw [demoRun_eval]
  rfl

/-- Claim C3 as amended: failure of the window-boundary delegator-snapshot
fetches does not by itself abort the run.  `fetch_delegator_info` returns
`None` instead of raising and `__main__` substitutes 0 for the starting and
ending pending stake and fees (lines 465-481); provided the per-round pass
emitted at least one row — so the line-521 column selection, a failure mode
independent of the boundary snapshots, succeeds — the run never ends in the
fatal outcome, and it computes exactly what a run whose boundary snapshots
succeed with zero pending values computes.  Per-round snapshot failures, as
the claim says, only skip that round. -/
theorem claim_C3 (currency : String) (price : String → String → Nat → ℚ)
    (sb eb : Nat) (seb slb eeb elb : ℚ) (rounds : List RoundData)
    (sOr eOr : Nat → FetchOracle) (bondL unbondL tL wL : List LedgerRow)
    (hs : fetch_delegator_info_body (sOr 0) = none)
    (_he : fetch_delegator_info_body (eOr 0) = none)
    (hne : process_delegator_balances_over_rounds price rounds currency
      (startingPendingStakeOf rounds sOr) (startingPendingFeesOf rounds sOr)
      ≠ []) :
    (∀ msg, runMain ⟨currency, price, .ok sb, .ok eb, .ok seb, .ok slb,
        .ok eeb, .ok elb, rounds, sOr, eOr, .ok bondL, .ok unbondL, .ok tL,
        .ok wL⟩ ≠ RunOutcome.fatal msg) ∧
    runMain ⟨currency, price, .ok sb, .ok eb, .ok seb, .ok slb, .ok eeb,
      .ok elb, rounds, sOr, eOr, .ok bondL, .ok unbondL, .ok tL, .ok wL⟩ =
      runMain ⟨currency, price, .ok sb, .ok eb, .ok seb, .ok slb, .ok eeb,
        .ok elb, rounds, (fun _ => zeroPendingOracle),
        (fun _ => zeroPendingOracle), .ok bondL, .ok unbondL, .ok tL, .ok wL⟩ ∧
    (∀ (rd : RoundData) (rest : List RoundData) (pS pF : ℚ), rd.info = none →
      processRounds price currency (startingPendingStakeOf rounds sOr)
        (startingPendingFeesOf rounds sOr) (rd :: rest) pS pF =
        processRounds price currency (startingPendingStakeOf rounds sOr)
          (startingPendingFeesOf rounds sOr) rest pS pF) := by
  have hbd : (process_delegator_balances_over_rounds price rounds currency
      (startingPendingStakeOf rounds sOr)
      (startingPendingFeesOf rounds sOr)).isEmpty = false := by
    cases hl : process_delegator_balances_over_rounds price rounds currency
        (startingPendingStakeOf rounds sOr)
        (startingPendingFeesOf rounds sOr) with
    | nil => exact absurd hl hne
    | cons a t => rfl
  refine ⟨?_, ?_, ?_⟩
  · intro msg
    rw [runMain_ok]
    dsimp only
    rw [hbd]
    simp only [Bool.false_eq_true, if_false]
    split <;> simp
  · rw [runMain_ok, runMain_ok]
    have h1 : startingPendingStakeOf rounds sOr =
        startingPendingStakeOf rounds (fun _ => zeroPendingOracle) := by
      unfold startingPendingStakeOf
      rw [hs]
      cases h : rounds.isEmpty <;>
        simp [h, fetch_delegator_info_body, zeroPendingOracle]
    have h2 : startingPendingFeesOf rounds sOr =
        startingPendingFeesOf rounds (fun _ => zeroPendingOracle) := by
      unfold startingPendingFeesOf
      rw [hs]
      cases h : rounds.isEmpty <;>
        simp [h, fetch_delegator_info_body, zeroPendingOracle]
    rw [h1, h2]
  · intro rd rest pS pF hrd
    exact processRounds_skip price currency _ _ rd rest pS pF (Or.inr hrd)

/-- Witness for the amended C3: `demoRun`'s boundary snapshots fail and its
per-round pass emits a row, and the run never aborts fatally. -/
theorem claim_C3_witness :
    fetch_delegator_info_body (demoRun.startOracles 0) = none ∧
    fetch_delegator_info_body (demoRun.endOracles 0) = none ∧
    process_delegator_balances_over_rounds demoPrice [demoRoundC5] "EUR"
      (startingPendingStakeOf [demoRoundC5] (fun _ => failOracle))
      (startingPendingFeesOf [demoRoundC5] (fun _ => failOracle)) ≠ [] ∧
    (∀ msg, runMain demoRun ≠ RunOutcome.fatal msg) := by
  have hne : process_delegator_balances_over_rounds demoPrice [demoRoundC5]
      "EUR" (startingPendingStakeOf [demoRoundC5] (fun _ => failOracle))
      (startingPendingFeesOf [demoRoundC5] (fun _ => failOracle)) ≠ [] := by
    rw [demoBalance_eval]
    simp
  exact ⟨rfl, rfl, hne,
    (claim_C3 "EUR" demoPrice 1 2 0 0 5 0 [demoRoundC5] (fun _ => failOracle)
      (fun _ => failOracle) [demoBondRow] [] [] [] rfl rfl hne).1⟩

/-- Counterexample to C3 as stated: on `demoRun` both window-boundary
delegator-snapshot fetches fail after retry exhaustion of their inner calls
(`fetch_delegator_info` returns `None`), yet the run does not abort: it
produces a report and exits successfully. -/
theorem claim_C3_counterexample :
    fetch_delegator_info demoRun.startOracles = Except.ok none ∧
    fetch_delegator_info demoRun.endOracles = Except.ok none ∧
    isReport (runMain demoRun) = true ∧
    exitCode (runMain demoRun) = 0 := by
  refine ⟨rfl, rfl, ?_, ?_⟩ <;> rw [demoRun_eval] <;> rfl

/-- Claim C8 names a code bug: the explicit no-income-data stop is
unreachable.  When every row set is empty, `balance_data` is empty, so
`pd.DataFrame(rows)` at line 265 is a DataFrame with no columns and the
selection `balance_data["transaction type"]` at line 521 raises an uncaught
`KeyError`: the run dies with a traceback and a non-zero exit status before
ever reaching the emptiness check of lines 573-576.  Conversely any
non-empty `balance_data` makes `reward_data` or `fee_data` non-empty (every
row is a reward or a fee row), so the `sys.exit(0)` branch the claim — and
lines 573-576 themselves — describe can never fire.  Evaluated at the
failing input (a window with zero rounds and zero events of every
category): the run crashes fatally instead of reaching the no-income-data
outcome, and no ledger is produced. -/
theorem claim_C8 :
    process_delegator_balances_over_rounds demoPrice [] "EUR"
      (startingPendingStakeOf [] (fun _ => zeroPendingOracle))
      (startingPendingFeesOf [] (fun _ => zeroPendingOracle)) = [] ∧
    runMain ⟨"EUR", demoPrice, .ok 1, .ok 2, .ok 0, .ok 0, .ok 5, .ok 0, [],
      (fun _ => zeroPendingOracle), (fun _ => zeroPendingOracle), .ok [],
      .ok [], .ok [], .ok []⟩ =
      RunOutcome.fatal "KeyError: transaction type" ∧
    exitCode (RunOutcome.fatal "KeyError: transaction type") = 1 ∧
    isReport (RunOutcome.fatal "KeyError: transaction type") = false :=
  ⟨rfl, rfl, rfl, rfl⟩
